import Mathlib

/-!
Verification development for the statistical analysis engine of the
auto-analyzer repository.  Each namespace shallowly embeds one component
of the source (the TypeScript component named in its header comment) and
proves the spec-level properties stated about it.

Numeric modelling: exact rationals stand in for JavaScript numbers in the
purely rational computations; real numbers are used where the source calls
Math.sqrt.  Where a JavaScript computation can produce a non-finite number
(NaN or an infinity) and that matters to a claim, values are modelled as
Option-wrapped numbers with none denoting a non-finite result, and the
arithmetic operations propagate none exactly as JavaScript arithmetic
propagates non-finite values along the concrete traces considered.
-/

namespace Stats

/-! Embedding of the numeric branch of analyzeData in the
StatisticalAnalysis component: the column values are the already parsed
numeric values (parseFloat results with NaN entries filtered out, as the
source does before this code runs). -/

/-- Ascending sort of the parsed numeric values, as in
`numericValues.sort((a, b) => a - b)`. -/
def sortedValues (xs : List ℚ) : List ℚ :=
  List.insertionSort (· ≤ ·) xs

/-- First quartile: `sorted[Math.floor(sorted.length * 0.25)]`.
For a natural n, `Math.floor(n * 0.25)` is exactly `n / 4` in ℕ. -/
def q1 (xs : List ℚ) : ℚ :=
  (sortedValues xs).getD (xs.length / 4) 0

/-- Median: `sorted[Math.floor(sorted.length * 0.5)]`. -/
def median (xs : List ℚ) : ℚ :=
  (sortedValues xs).getD (xs.length / 2) 0

/-- Third quartile: `sorted[Math.floor(sorted.length * 0.75)]`;
`Math.floor(n * 0.75)` is exactly `3 * n / 4` in ℕ. -/
def q3 (xs : List ℚ) : ℚ :=
  (sortedValues xs).getD (3 * xs.length / 4) 0

/-- `Math.min(...numericValues)` for a non-empty list. -/
def minVal (xs : List ℚ) : ℚ :=
  (xs.min?).getD 0

/-- `Math.max(...numericValues)` for a non-empty list. -/
def maxVal (xs : List ℚ) : ℚ :=
  (xs.max?).getD 0

/-- The histogram of analyzeData: 10 bins, each of width
`(max - min) / 10`, bin i counting values v with
`binStart <= v && v < binEnd` (the upper edge is exclusive for every bin,
including the last one). -/
def distribution (xs : List ℚ) : List (ℚ × ℚ × ℕ) :=
  let lo := minVal xs
  let binSize := (maxVal xs - lo) / 10
  (List.range 10).map (fun i : ℕ =>
    let binStart := lo + (i : ℚ) * binSize
    let binEnd := binStart + binSize
    (binStart, binEnd, (xs.filter (fun v => binStart ≤ v ∧ v < binEnd)).length))

end Stats

namespace Clean

/-! Embedding of handleRemoveMissingValues in the MissingValueHandler
component.  A cell is the raw value of one column of one row:
none models null/undefined/absent, some s a string value. -/

/-- A missing cell for the removal filter: the source keeps a row only
when every cell is distinct from the empty string, null, undefined,
the string N/A and the string null. -/
def keptCell : Option String → Bool
  | none => false
  | some s => ¬ (s = "" ∨ s = "N/A" ∨ s = "null")

/-- The filter of handleRemoveMissingValues: keep the rows all of whose
cells pass the sentinel test. -/
def removeMissingRows (data : List (List (Option String))) :
    List (List (Option String)) :=
  data.filter (fun row => row.all keptCell)

/-- handleRemoveMissingValues: compute the filtered dataset; when it is
empty, refuse (an error toast, no onDataCleaned call — modelled as none),
otherwise deliver it through onDataCleaned (modelled as some). -/
def handleRemoveMissingValues (data : List (List (Option String))) :
    Option (List (List (Option String))) :=
  let cleanedData := removeMissingRows data
  if cleanedData.isEmpty then none else some cleanedData

end Clean

namespace Dedup

/-! Embedding of the duplicate branch of autoFixIssues in the
DataQualityScanner component.  A row is modelled as its list of
key/value pairs; JSON.stringify of two such rows coincides exactly when
the lists coincide (cells keep their insertion order), so membership of
the serialized row in the seen set is membership of the row itself. -/

/-- The filter pass with its seen set: keep a row when its serialization
has not been seen, recording it; drop it otherwise. -/
def dedupeAux (seen : List (List (String × String))) :
    List (List (String × String)) → List (List (String × String))
  | [] => []
  | row :: rest =>
    if row ∈ seen then dedupeAux seen rest
    else row :: dedupeAux (row :: seen) rest

/-- The duplicate auto-fix: keep the first occurrence of each exact
serialized row, drop subsequent duplicates. -/
def dedupe (data : List (List (String × String))) :
    List (List (String × String)) :=
  dedupeAux [] data

end Dedup

namespace JsNum

/-! A JavaScript-number layer for the computations in which a non-finite
intermediate value (NaN or an infinity) matters to a claim: some q is a
finite number with exact value q, none is a non-finite number.  Addition,
subtraction and multiplication of non-finite operands are non-finite in
JavaScript, and division by zero is non-finite, which the operations
below reproduce; comparisons involving a non-finite NaN value are false. -/

/-- JavaScript addition. -/
def fadd : Option ℚ → Option ℚ → Option ℚ
  | some a, some b => some (a + b)
  | _, _ => none

/-- JavaScript subtraction. -/
def fsub : Option ℚ → Option ℚ → Option ℚ
  | some a, some b => some (a - b)
  | _, _ => none

/-- JavaScript multiplication. -/
def fmul : Option ℚ → Option ℚ → Option ℚ
  | some a, some b => some (a * b)
  | _, _ => none

/-- JavaScript division: division by zero gives a non-finite value. -/
def fdiv : Option ℚ → Option ℚ → Option ℚ
  | some a, some b => if b = 0 then none else some (a / b)
  | _, _ => none

/-- Math.abs. -/
def fabs : Option ℚ → Option ℚ
  | some a => some |a|
  | none => none

/-- JavaScript strict greater-than: false whenever an operand is NaN. -/
def fgt : Option ℚ → Option ℚ → Bool
  | some a, some b => b < a
  | _, _ => false

/-- JavaScript less-or-equal: false whenever an operand is NaN. -/
def fle : Option ℚ → Option ℚ → Bool
  | some a, some b => a ≤ b
  | _, _ => false

/-- Math.pow(x, 2). -/
def fsq (x : Option ℚ) : Option ℚ := fmul x x

/-- A reduce over + starting from the literal 0. -/
def sumF (l : List (Option ℚ)) : Option ℚ := l.foldl fadd (some 0)

end JsNum

namespace Forecast

/-! Embedding of the four forecasting methods of the PredictiveAnalytics
component.  The input is the per-row parseFloat result of the selected
column (none for an unparseable cell); Math.random in the moving-average
jitter is a parameter. -/

/-- One emitted forecast point; predicted is none when the JavaScript
computation yields NaN or undefined. -/
structure ForecastPoint where
  index : ℕ
  predicted : Option ℚ
  confidence : ℚ

/-- The (x, y) series of performLinearRegression: x is the original row
index (indices are assigned before the NaN filter runs). -/
def linearValues (parsed : List (Option ℚ)) : List (ℚ × ℚ) :=
  parsed.enum.filterMap (fun p => p.2.map (fun y => ((p.1 : ℚ), y)))

/-- The forecast field of performLinearRegression: ten points extrapolated
from an ordinary-least-squares fit on (index, value), with confidence
`Math.max(60, 95 - i * 2)`. -/
def performLinearRegressionForecast (parsed : List (Option ℚ)) :
    List ForecastPoint :=
  let values := linearValues parsed
  let n : ℕ := values.length
  let sumX := (values.map (fun p => p.1)).sum
  let sumY := (values.map (fun p => p.2)).sum
  let sumXY := (values.map (fun p => p.1 * p.2)).sum
  let sumX2 := (values.map (fun p => p.1 * p.1)).sum
  let slope := JsNum.fdiv (some ((n : ℚ) * sumXY - sumX * sumY))
    (some ((n : ℚ) * sumX2 - sumX * sumX))
  let intercept := JsNum.fdiv (JsNum.fsub (some sumY) (JsNum.fmul slope (some sumX)))
    (some (n : ℚ))
  (List.range 10).map (fun i : ℕ =>
    ⟨n + i, JsNum.fadd (JsNum.fmul slope (some ((n : ℚ) + (i : ℚ)))) intercept,
      max 60 (95 - (i : ℚ) * 2)⟩)

/-- The forecast field of performMovingAverage: the mean of the last
`min(5, floor(n/3))` values held flat with a small random jitter,
confidence `Math.max(50, 80 - i * 3)`.  When the window is zero the
JavaScript mean is a division by zero, hence non-finite. -/
def performMovingAverageForecast (rand : ℕ → ℚ) (parsed : List (Option ℚ)) :
    List ForecastPoint :=
  let values := parsed.reduceOption
  let window : ℕ := min 5 (values.length / 3)
  let lastValues := if window = 0 then values else values.drop (values.length - window)
  let movingAvg := JsNum.fdiv (some lastValues.sum) (some (window : ℚ))
  (List.range 10).map (fun i : ℕ =>
    ⟨values.length + i,
      JsNum.fadd movingAvg
        (JsNum.fmul (JsNum.fmul (some (rand i - 1/2)) movingAvg) (some (1/10))),
      max 50 (80 - (i : ℚ) * 3)⟩)

/-- The forecast field of performExponentialSmoothing: recursive smoothing
with alpha 0.3 held flat, confidence `Math.max(60, 85 - i * 2.5)`; on an
empty series values[0] is undefined and the forecast value non-finite. -/
def performExponentialSmoothingForecast (parsed : List (Option ℚ)) :
    List ForecastPoint :=
  let values := parsed.reduceOption
  let a : ℚ := 3 / 10
  let smoothed : Option ℚ :=
    match values with
    | [] => none
    | v :: rest => some (rest.foldl (fun s x => a * x + (1 - a) * s) v)
  (List.range 10).map (fun i : ℕ =>
    ⟨values.length + i, smoothed, max 60 (85 - (i : ℚ) * (5 / 2))⟩)

/-- The same-phase historical values of one seasonal offset: the values at
indices i0, i0 + sl, i0 + 2*sl, ... (the inner loop of seasonalPattern;
it only runs for i0 < sl, so sl ≥ 1 there). -/
def seasonalValuesAt (values : List ℚ) (sl i0 : ℕ) : List ℚ :=
  ((List.range values.length).filter
    (fun j => i0 ≤ j ∧ (j - i0) % sl = 0)).map (fun j => values.getD j 0)

/-- The forecast field of performSeasonalAnalysis: season length
`min(12, floor(n/4))`; when `n < 2 * seasonLength` the insufficient-data
branch returns an empty forecast; otherwise ten points cycling through
the per-offset averages, confidence `Math.max(65, 88 - i * 2)`.  Indexing
the pattern with `i % 0` on a zero season length gives an undefined
predicted value, modelled by get?. -/
def performSeasonalAnalysisForecast (parsed : List (Option ℚ)) :
    List ForecastPoint :=
  let values := parsed.reduceOption
  let seasonLength : ℕ := min 12 (values.length / 4)
  if values.length < seasonLength * 2 then []
  else
    let seasonalPattern := (List.range seasonLength).map (fun i0 : ℕ =>
      let sv := seasonalValuesAt values seasonLength i0
      sv.sum / (sv.length : ℚ))
    (List.range 10).map (fun i : ℕ =>
      ⟨values.length + i, seasonalPattern.get? (i % seasonLength),
        max 65 (88 - (i : ℚ) * 2)⟩)

/-- The sequence of confidence values of a forecast. -/
def confSeq (l : List ForecastPoint) : List ℚ := l.map (fun p => p.confidence)

end Forecast

namespace Reg

/-! Embedding of the regression engine of the CohortAnalysis component:
simple linear regression, multiple linear regression through normal
equations and Gaussian elimination, and degree-2 polynomial regression.
Inputs are the per-row parseFloat results of the selected columns.  The
standardError and pValue outputs are not modelled: they pass through
Math.sqrt, and they feed no other output and no claim.  All other
outputs are computed exactly as the source computes them, in the
JavaScript-number layer of the JsNum namespace. -/

/-- One prediction row: x, y, predicted and residual (the latter two can
be non-finite when a division by zero occurred upstream). -/
structure PredPoint where
  x : ℚ
  y : ℚ
  predicted : Option ℚ
  residual : Option ℚ

/-- Result of the simple and polynomial variants. -/
structure RegResult where
  slope : Option ℚ
  intercept : Option ℚ
  rSquared : Option ℚ
  predictions : List PredPoint

/-- One entry of the multiple-regression coefficients output. -/
structure FeatureCoef where
  coefficient : Option ℚ
  importance : Option ℚ

/-- Result of the multiple variant. -/
structure MultiResult where
  slope : Option ℚ
  intercept : Option ℚ
  rSquared : Option ℚ
  predictions : List PredPoint
  coefficients : List FeatureCoef

/-- The (x, y) pairs both of whose parses succeeded. -/
def simplePairs (data : List (Option ℚ × Option ℚ)) : List (ℚ × ℚ) :=
  data.filterMap (fun p =>
    match p.1, p.2 with
    | some x, some y => some (x, y)
    | _, _ => none)

/-- performSimpleLinearRegression: closed-form ordinary least squares on
the valid pairs; throws (models as error) below 2 valid pairs. -/
def performSimpleLinearRegression (data : List (Option ℚ × Option ℚ)) :
    Except String RegResult :=
  let pairs := simplePairs data
  if pairs.length < 2 then .error "Insufficient data for regression"
  else
    let n : ℚ := pairs.length
    let sumX := (pairs.map (fun p => p.1)).sum
    let sumY := (pairs.map (fun p => p.2)).sum
    let sumXY := (pairs.map (fun p => p.1 * p.2)).sum
    let sumX2 := (pairs.map (fun p => p.1 * p.1)).sum
    let slope := JsNum.fdiv (some (n * sumXY - sumX * sumY))
      (some (n * sumX2 - sumX * sumX))
    let intercept := JsNum.fdiv
      (JsNum.fsub (some sumY) (JsNum.fmul slope (some sumX))) (some n)
    let meanY := sumY / n
    let ssTotal := (pairs.map (fun p => (p.2 - meanY) ^ 2)).sum
    let predictions := pairs.map (fun p =>
      let predicted := JsNum.fadd (JsNum.fmul slope (some p.1)) intercept
      PredPoint.mk p.1 p.2 predicted (JsNum.fsub (some p.2) predicted))
    let ssResidual := JsNum.sumF (predictions.map (fun p => JsNum.fsq p.residual))
    let rSquared := JsNum.fsub (some 1) (JsNum.fdiv ssResidual (some ssTotal))
    .ok (RegResult.mk slope intercept rSquared predictions)

/-- Matrix access `augmented[k][i]`: an out-of-range JavaScript access is
undefined, whose arithmetic is non-finite, hence the none default. -/
def getF (mat : List (List (Option ℚ))) (k i : ℕ) : Option ℚ :=
  (mat.getD k []).getD i none

/-- In-place style update `augmented[k][i] = v`. -/
def setF (mat : List (List (Option ℚ))) (k i : ℕ) (v : Option ℚ) :
    List (List (Option ℚ)) :=
  mat.set k ((mat.getD k []).set i v)

/-- The destructuring swap of rows i and j. -/
def swapRows (mat : List (List (Option ℚ))) (i j : ℕ) :
    List (List (Option ℚ)) :=
  let ri := mat.getD i []
  let rj := mat.getD j []
  (mat.set i rj).set j ri

/-- Partial pivoting: the first row index from i upward holding the
strictly largest absolute value in column i (the JavaScript comparison
with NaN is false, so non-finite entries never win). -/
def pivotRow (mat : List (List (Option ℚ))) (n i : ℕ) : ℕ :=
  ((List.range n).drop (i + 1)).foldl (fun maxRow k =>
    if JsNum.fgt (JsNum.fabs (getF mat k i)) (JsNum.fabs (getF mat maxRow i))
    then k else maxRow) i

/-- The elimination of row k against pivot row i: the factor is read once
before the column sweep, then `augmented[k][j] -= factor * augmented[i][j]`
for j = i .. n. -/
def elimRow (mat : List (List (Option ℚ))) (n i k : ℕ) :
    List (List (Option ℚ)) :=
  let factor := JsNum.fdiv (getF mat k i) (getF mat i i)
  ((List.range (n + 1)).drop i).foldl (fun m j =>
    setF m k j (JsNum.fsub (getF m k j) (JsNum.fmul factor (getF m i j)))) mat

/-- The forward-elimination loop of gaussianElimination. -/
def forwardElim (n : ℕ) (aug : List (List (Option ℚ))) :
    List (List (Option ℚ)) :=
  (List.range n).foldl (fun mat i =>
    let mat := swapRows mat i (pivotRow mat n i)
    ((List.range n).drop (i + 1)).foldl (fun m k => elimRow m n i k) mat) aug

/-- The back-substitution loop of gaussianElimination, over a solution
array initialised with zeroes. -/
def backSub (n : ℕ) (aug : List (List (Option ℚ))) : List (Option ℚ) :=
  ((List.range n).reverse).foldl (fun sol i =>
    let s := ((List.range n).drop (i + 1)).foldl (fun s j =>
      JsNum.fsub s (JsNum.fmul (getF aug i j) (sol.getD j (some 0)))) (getF aug i n)
    sol.set i (JsNum.fdiv s (getF aug i i))) (List.replicate n (some 0))

/-- gaussianElimination: augment A with b, eliminate forward with partial
pivoting, substitute backward.  No pivot is ever checked against zero, so
a singular system divides by zero and produces non-finite entries. -/
def gaussianElimination (A : List (List (Option ℚ))) (b : List (Option ℚ)) :
    List (Option ℚ) :=
  let n := A.length
  let aug := (A.zip b).map (fun p => p.1 ++ [p.2])
  backSub n (forwardElim n aug)

/-- solveNormalEquation: build XᵗX and Xᵗy over the finite design matrix
and hand them to the Gaussian solver. -/
def solveNormalEquation (X : List (List ℚ)) (y : List ℚ) : List (Option ℚ) :=
  let m := (X.headD []).length
  let XtX := (List.range m).map (fun i => (List.range m).map (fun j =>
    (X.map (fun row => row.getD i 0 * row.getD j 0)).sum))
  let Xty := (List.range m).map (fun i =>
    ((X.zip y).map (fun p => p.1.getD i 0 * p.2)).sum)
  gaussianElimination (XtX.map (fun row => row.map some)) (Xty.map some)

/-- The rows all of whose feature parses and target parse succeeded. -/
def multiCleanData (data : List (List (Option ℚ) × Option ℚ)) :
    List (List ℚ × ℚ) :=
  data.filterMap (fun r =>
    match r.2 with
    | some y => if r.1.all (fun c => c.isSome) then some (r.1.reduceOption, y) else none
    | none => none)

/-- The per-row prediction `coefficients.reduce((sum, coef, j) =>
sum + coef * X[i][j], 0)`. -/
def predRow (coefs : List (Option ℚ)) (xrow : List ℚ) : Option ℚ :=
  coefs.enum.foldl (fun acc cj =>
    JsNum.fadd acc (JsNum.fmul cj.2 (some (xrow.getD cj.1 0)))) (some 0)

/-- Math.max over already-computed absolute coefficient values: empty
gives the non-finite minus infinity, a NaN operand poisons the result. -/
def maxF : List (Option ℚ) → Option ℚ
  | [] => none
  | x :: rest => rest.foldl (fun acc v =>
      match acc, v with
      | some a, some b => some (max a b)
      | _, _ => none) x

/-- The JavaScript coercion `v || 0`: NaN is falsy, so a NaN coefficient
is reported as 0. -/
def jsOr0 : Option ℚ → Option ℚ
  | some a => if a = 0 then some 0 else some a
  | none => some 0

/-- performMultipleLinearRegression: normal equations over the design
matrix with prepended intercept column; throws (modelled as error) when
the usable row count is at most the feature count. -/
def performMultipleLinearRegression (numFeatures : ℕ)
    (data : List (List (Option ℚ) × Option ℚ)) : Except String MultiResult :=
  let cleanData := multiCleanData data
  if cleanData.length < numFeatures + 1 then
    .error "Insufficient data for multiple regression"
  else
    let X := cleanData.map (fun r => 1 :: r.1)
    let y := cleanData.map (fun r => r.2)
    let coefficients := solveNormalEquation X y
    let predictions := (cleanData.zip X).map (fun p =>
      let predicted := predRow coefficients p.2
      PredPoint.mk (p.1.1.getD 0 0) p.1.2 predicted
        (JsNum.fsub (some p.1.2) predicted))
    let meanY := y.sum / (y.length : ℚ)
    let ssTotal := (y.map (fun v => (v - meanY) ^ 2)).sum
    let ssResidual := JsNum.sumF (predictions.map (fun p => JsNum.fsq p.residual))
    let rSquared := JsNum.fsub (some 1) (JsNum.fdiv ssResidual (some ssTotal))
    let maxCoef := maxF ((coefficients.drop 1).map JsNum.fabs)
    let featureCoefficients := (List.range numFeatures).map (fun idx =>
      let c := coefficients.getD (idx + 1) none
      FeatureCoef.mk c
        (if JsNum.fgt maxCoef (some 0) then JsNum.fdiv (JsNum.fabs c) maxCoef
         else some 0))
    .ok (MultiResult.mk (jsOr0 (coefficients.getD 1 none))
      (coefficients.getD 0 none) rSquared predictions featureCoefficients)

/-- performPolynomialRegression: degree-2 design matrix [1, x, x²] through
the same solver; throws (modelled as error) below 3 valid pairs. -/
def performPolynomialRegression (data : List (Option ℚ × Option ℚ)) :
    Except String RegResult :=
  let pairs := simplePairs data
  if pairs.length < 3 then .error "Insufficient data for polynomial regression"
  else
    let X := pairs.map (fun p => [1, p.1, p.1 * p.1])
    let y := pairs.map (fun p => p.2)
    let coefficients := solveNormalEquation X y
    let predictions := pairs.map (fun p =>
      let predicted := JsNum.fadd
        (JsNum.fadd (coefficients.getD 0 none)
          (JsNum.fmul (coefficients.getD 1 none) (some p.1)))
        (JsNum.fmul (JsNum.fmul (coefficients.getD 2 none) (some p.1)) (some p.1))
      PredPoint.mk p.1 p.2 predicted (JsNum.fsub (some p.2) predicted))
    let meanY := y.sum / (y.length : ℚ)
    let ssTotal := (y.map (fun v => (v - meanY) ^ 2)).sum
    let ssResidual := JsNum.sumF (predictions.map (fun p => JsNum.fsq p.residual))
    let rSquared := JsNum.fsub (some 1) (JsNum.fdiv ssResidual (some ssTotal))
    .ok (RegResult.mk (coefficients.getD 1 none) (coefficients.getD 0 none)
      rSquared predictions)

end Reg

namespace Pearson

/-! Embedding of calculatePearsonCorrelation in the StatisticalAnalysis
component.  A row is the function taking a column name to the parseFloat
result of its cell (none when the cell does not parse); real numbers
stand in for JavaScript numbers because the denominator passes through
Math.sqrt. -/

/-- The index-aligned pairs in which both columns parse numerically. -/
def pairsOf (data : List (String → Option ℝ)) (c1 c2 : String) :
    List (ℝ × ℝ) :=
  data.filterMap (fun row =>
    match row c1, row c2 with
    | some x, some y => some (x, y)
    | _, _ => none)

/-- The values of one column that parse numerically (the valid paired
values of the column with itself). -/
def validValues (data : List (String → Option ℝ)) (c : String) : List ℝ :=
  data.filterMap (fun row => row c)

/-- calculatePearsonCorrelation: Pearson's r over the pairwise complete
observations, 0 below 2 valid pairs and 0 when the denominator is 0. -/
noncomputable def calculatePearsonCorrelation
    (data : List (String → Option ℝ)) (c1 c2 : String) : ℝ :=
  let pairs := pairsOf data c1 c2
  if pairs.length < 2 then 0
  else
    let n : ℝ := pairs.length
    let sumX := (pairs.map (fun p => p.1)).sum
    let sumY := (pairs.map (fun p => p.2)).sum
    let sumXY := (pairs.map (fun p => p.1 * p.2)).sum
    let sumX2 := (pairs.map (fun p => p.1 * p.1)).sum
    let sumY2 := (pairs.map (fun p => p.2 * p.2)).sum
    let numerator := n * sumXY - sumX * sumY
    let denominator :=
      Real.sqrt ((n * sumX2 - sumX * sumX) * (n * sumY2 - sumY * sumY))
    if denominator = 0 then 0 else numerator / denominator

end Pearson

namespace Cluster

/-! Embedding of performKMeansClustering and calculateSilhouetteScore in
the SmartChartRecommendations component.  A point is the list of parsed
values of the selected columns; d is the number of selected columns, so
every point and every centroid of a run has length d.  Real numbers
stand in for JavaScript numbers because distances pass through
Math.sqrt; the random centroid initialisation is a parameter (the claims
quantify over every initial placement). -/

/-- The body of euclideanDistance before the square root: the reduce over
the indices of the first point, `sum + (val - point2[i]) ** 2`. -/
noncomputable def dist2 (p1 p2 : List ℝ) : ℝ :=
  ((List.range p1.length).map (fun i => (p1.getD i 0 - p2.getD i 0) ^ 2)).sum

/-- euclideanDistance. -/
noncomputable def euclideanDistance (p1 p2 : List ℝ) : ℝ :=
  Real.sqrt (dist2 p1 p2)

/-- The body of the assignment loop: a candidate centroid (index j,
coordinates c) takes over only when its distance is strictly smaller
than the running minimum (none models the initial Infinity). -/
noncomputable def nearStep (point : List ℝ) (acc : ℕ × Option ℝ)
    (jc : ℕ × List ℝ) : ℕ × Option ℝ :=
  let d := euclideanDistance point jc.2
  match acc.2 with
  | none => (jc.1, some d)
  | some m => if d < m then (jc.1, some d) else acc

/-- The assignment loop for one point: minDistance starts at Infinity,
bestCluster at 0, so the first centroid attaining the minimum wins. -/
noncomputable def nearestCluster (point : List ℝ) (centroids : List (List ℝ)) : ℕ :=
  (centroids.enum.foldl (nearStep point) (0, none)).1

/-- One assignment pass over all points. -/
noncomputable def assignLabels (points : List (List ℝ))
    (centroids : List (List ℝ)) : List ℕ :=
  points.map (fun p => nearestCluster p centroids)

/-- The centroid update for cluster j: the coordinatewise mean of the
points assigned to j, or the previous centroid when no point is. -/
noncomputable def updateCentroid (points : List (List ℝ)) (labels : List ℕ)
    (d j : ℕ) (old : List ℝ) : List ℝ :=
  let clusterPoints := (points.enum.filter (fun q => labels.getD q.1 0 = j)).map
    (fun q => q.2)
  if clusterPoints.length = 0 then old
  else (List.range d).map (fun dim =>
    (clusterPoints.map (fun p => p.getD dim 0)).sum / clusterPoints.length)

/-- One k-means iteration on the state (centroids, labels): assign every
point to its nearest centroid, then recompute every centroid. -/
noncomputable def stepState (points : List (List ℝ)) (d : ℕ)
    (s : List (List ℝ) × List ℕ) : List (List ℝ) × List ℕ :=
  let labels := assignLabels points s.1
  (s.1.enum.map (fun jc => updateCentroid points labels d jc.1 jc.2), labels)

/-- The within-cluster sum of squares,
`sum + euclideanDistance(point, centroids[labels[i]]) ** 2`. -/
noncomputable def inertia (points : List (List ℝ))
    (s : List (List ℝ) × List ℕ) : ℝ :=
  (points.enum.map (fun q =>
    euclideanDistance q.2 (s.1.getD (s.2.getD q.1 0) []) ^ 2)).sum

/-- The silhouette a-value of point i: the mean distance to the other
points of its own cluster, or 0 when it is alone in it. -/
noncomputable def aOf (points : List (List ℝ)) (labels : List ℕ) (i : ℕ) : ℝ :=
  let same := points.enum.filter
    (fun q => labels.getD q.1 0 = labels.getD i 0 ∧ q.1 ≠ i)
  if same.length = 0 then 0
  else (same.map (fun q => euclideanDistance (points.getD i []) q.2)).sum /
    same.length

/-- The silhouette b-value of point i: the minimum over the other,
non-empty clusters of the mean distance to that cluster; none models the
untouched Infinity when every other cluster is empty. -/
noncomputable def bOf (points : List (List ℝ)) (labels : List ℕ)
    (centroids : List (List ℝ)) (i : ℕ) : Option ℝ :=
  (List.range centroids.length).foldl (fun acc k =>
    if k ≠ labels.getD i 0 then
      let otherPts := points.enum.filter (fun q => labels.getD q.1 0 = k)
      if otherPts.length ≠ 0 then
        let avg := (otherPts.map (fun q =>
          euclideanDistance (points.getD i []) q.2)).sum / otherPts.length
        match acc with
        | none => some avg
        | some m => some (min m avg)
      else acc
    else acc) none

/-- The invariant of the assignment fold: after folding the processed
prefix, the accumulator is either untouched (nothing processed) or holds
the index and distance of a processed centroid of minimal distance. -/
def goodAcc (point : List ℝ) (acc : ℕ × Option ℝ)
    (seen : List (ℕ × List ℝ)) : Prop :=
  (acc = (0, none) ∧ seen = []) ∨
  (∃ m, acc.2 = some m ∧
    (∃ pc ∈ seen, pc.1 = acc.1 ∧ m = euclideanDistance point pc.2) ∧
    ∀ pc ∈ seen, m ≤ euclideanDistance point pc.2)

/-- The per-point silhouette `(b - a) / Math.max(a, b)`: non-finite when
b stayed at Infinity (Infinity / Infinity is NaN) or when a = b = 0
(division 0 / 0). -/
noncomputable def silhouetteOf (a : ℝ) (b : Option ℝ) : Option ℝ :=
  match b with
  | none => none
  | some bv => if max a bv = 0 then none else some ((bv - a) / max a bv)

/-- The JavaScript running total of the per-point silhouettes: one NaN
term poisons the sum. -/
noncomputable def sumOptR (l : List (Option ℝ)) : Option ℝ :=
  l.foldl (fun acc x =>
    match acc, x with
    | some a, some b => some (a + b)
    | _, _ => none) (some 0)

/-- calculateSilhouetteScore: 0 below two points, otherwise the mean of
the per-point silhouettes (none when any of them is non-finite). -/
noncomputable def calculateSilhouetteScore (points : List (List ℝ))
    (labels : List ℕ) (centroids : List (List ℝ)) : Option ℝ :=
  if points.length < 2 then some 0
  else
    match sumOptR ((List.range points.length).map (fun i =>
      silhouetteOf (aOf points labels i) (bOf points labels centroids i))) with
    | none => none
    | some s => some (s / points.length)

end Cluster

namespace Stats

theorem length_sortedValues (xs : List ℚ) : (sortedValues xs).length = xs.length :=
  List.length_insertionSort (· ≤ ·) xs

theorem getD_sorted_mono {xs : List ℚ} {i j : ℕ} (hij : i ≤ j)
    (hj : j < (sortedValues xs).length) :
    (sortedValues xs).getD i 0 ≤ (sortedValues xs).getD j 0 := by
  have hi : i < (sortedValues xs).length := lt_of_le_of_lt hij hj
  rw [List.getD_eq_getElem?_getD, List.getElem?_eq_getElem hi,
    List.getD_eq_getElem?_getD, List.getElem?_eq_getElem hj]
  simpa using (List.sorted_insertionSort (· ≤ ·) xs).rel_get_of_le
    (a := ⟨i, hi⟩) (b := ⟨j, hj⟩) hij

theorem getD_sorted_mem {xs : List ℚ} {i : ℕ}
    (hi : i < (sortedValues xs).length) :
    (sortedValues xs).getD i 0 ∈ xs := by
  rw [List.getD_eq_getElem?_getD, List.getElem?_eq_getElem hi]
  exact (List.perm_insertionSort (· ≤ ·) xs).mem_iff.mp
    (List.getElem_mem hi)

theorem minVal_le_mem {xs : List ℚ} {a : ℚ} (ha : a ∈ xs) : minVal xs ≤ a := by
  cases hm : xs.min? with
  | none =>
    rcases List.min?_eq_none_iff.mp hm with rfl
    simp at ha
  | some m =>
    have h := (List.le_min?_iff (fun a b c => le_min_iff) hm).mp (le_refl m) a ha
    simpa [minVal, hm] using h

theorem mem_le_maxVal {xs : List ℚ} {a : ℚ} (ha : a ∈ xs) : a ≤ maxVal xs := by
  cases hm : xs.max? with
  | none =>
    rcases List.max?_eq_none_iff.mp hm with rfl
    simp at ha
  | some m =>
    have h := (List.max?_le_iff (fun a b c => max_le_iff) hm).mp (le_refl m) a ha
    simpa [maxVal, hm] using h

end Stats

/-- C2: for every non-empty list of parsed numeric values, the descriptive
summary satisfies min ≤ q1 ≤ median ≤ q3 ≤ max, the quartiles being taken
by nearest-rank index floor of a quarter, a half and three quarters of the
length into the ascending-sorted values, with no interpolation. -/
theorem quartiles_ordered (xs : List ℚ) (h : xs ≠ []) :
    Stats.minVal xs ≤ Stats.q1 xs ∧ Stats.q1 xs ≤ Stats.median xs ∧
    Stats.median xs ≤ Stats.q3 xs ∧ Stats.q3 xs ≤ Stats.maxVal xs := by
  have hn : 0 < xs.length := List.length_pos.mpr h
  have hlen := Stats.length_sortedValues xs
  have h14 : xs.length / 4 ≤ xs.length / 2 := by omega
  have h24 : xs.length / 2 ≤ 3 * xs.length / 4 := by omega
  have h34 : 3 * xs.length / 4 < (Stats.sortedValues xs).length := by omega
  refine ⟨?_, ?_, ?_, ?_⟩
  · exact Stats.minVal_le_mem (Stats.getD_sorted_mem (by omega))
  · exact Stats.getD_sorted_mono h14 (by omega)
  · exact Stats.getD_sorted_mono h24 h34
  · exact Stats.mem_le_maxVal (Stats.getD_sorted_mem h34)

/-- Witness for C2 at the concrete column [3, 1, 2]. -/
theorem quartiles_ordered_witness :
    ([3, 1, 2] : List ℚ) ≠ [] ∧
    (Stats.minVal [3, 1, 2] ≤ Stats.q1 [3, 1, 2] ∧
      Stats.q1 [3, 1, 2] ≤ Stats.median [3, 1, 2] ∧
      Stats.median [3, 1, 2] ≤ Stats.q3 [3, 1, 2] ∧
      Stats.q3 [3, 1, 2] ≤ Stats.maxVal [3, 1, 2]) :=
  ⟨by decide, quartiles_ordered [3, 1, 2] (by decide)⟩

/-- C4: evaluation of the histogram at the failing column [0, 10].  The
code produces 10 bins but counts every bin with a strictly exclusive
upper edge, the final bin included, so the maximum value 10 falls in no
bin: only 1 of the 2 parsed values is counted. -/
theorem histogram_drops_max :
    (Stats.distribution [0, 10]).length = 10 ∧
    ((Stats.distribution [0, 10]).map (fun b => b.2.2)).sum = 1 ∧
    ([(0 : ℚ), 10].length = 2) := by
  refine ⟨?_, ?_, rfl⟩
  · simp only [Stats.distribution, List.length_map, List.length_range]
  · norm_num [Stats.distribution, Stats.minVal, Stats.maxVal, List.range_succ]

/-- C6: missing-value removal never silently delivers an empty dataset:
when the filter would delete every row the operation is refused and
nothing is delivered, and any dataset that is delivered is the non-empty
filtered dataset. -/
theorem removeMissing_never_empty (data : List (List (Option String))) :
    (Clean.removeMissingRows data = [] →
      Clean.handleRemoveMissingValues data = none) ∧
    (∀ d, Clean.handleRemoveMissingValues data = some d →
      d = Clean.removeMissingRows data ∧ d ≠ []) := by
  constructor
  · intro hempty
    simp [Clean.handleRemoveMissingValues, hempty]
  · intro d hd
    unfold Clean.handleRemoveMissingValues at hd
    by_cases hc : (Clean.removeMissingRows data).isEmpty
    · simp [hc] at hd
    · simp only [hc, if_neg, Bool.false_eq_true, not_false_eq_true, ite_false,
        Option.some.injEq] at hd
      subst hd
      exact ⟨rfl, by simpa [List.isEmpty_iff] using hc⟩

/-- Witness for C6: a dataset of only missing rows is refused, and a
dataset with one clean row delivers exactly that non-empty row. -/
theorem removeMissing_never_empty_witness :
    Clean.handleRemoveMissingValues [[some "N/A"], [none]] = none ∧
    ([[some "a"]] = Clean.removeMissingRows [[some "a"], [some ""]] ∧
      ([[some "a"]] : List (List (Option String))) ≠ []) :=
  ⟨(removeMissing_never_empty [[some "N/A"], [none]]).1 (by decide),
    (removeMissing_never_empty [[some "a"], [some ""]]).2 [[some "a"]] (by decide)⟩

theorem dedupeAux_idem (l : List (List (String × String))) :
    ∀ seen, Dedup.dedupeAux seen (Dedup.dedupeAux seen l) =
      Dedup.dedupeAux seen l := by
  induction l with
  | nil => intro seen; rfl
  | cons r rest ih =>
    intro seen
    by_cases h : r ∈ seen
    · simp only [Dedup.dedupeAux, if_pos h]
      exact ih seen
    · have step : Dedup.dedupeAux seen (r :: rest) =
          r :: Dedup.dedupeAux (r :: seen) rest := by
        simp [Dedup.dedupeAux, h]
      have step2 : Dedup.dedupeAux seen (r :: Dedup.dedupeAux (r :: seen) rest) =
          r :: Dedup.dedupeAux (r :: seen) (Dedup.dedupeAux (r :: seen) rest) := by
        simp [Dedup.dedupeAux, h]
      rw [step, step2, ih (r :: seen)]

/-- C7: deduplication, which keeps the first occurrence of each exact
serialized row and drops subsequent duplicates, is idempotent. -/
theorem dedupe_idem (data : List (List (String × String))) :
    Dedup.dedupe (Dedup.dedupe data) = Dedup.dedupe data :=
  dedupeAux_idem data []

theorem seasonal_guard_false (n : ℕ) : ¬ (n < min 12 (n / 4) * 2) := by
  have h1 : min 12 (n / 4) ≤ n / 4 := min_le_right _ _
  omega

/-- C5: each of the four forecasting methods emits exactly 10 forward
forecast points for every input series, and the attached confidence
sequence is monotonically non-increasing.  The insufficient-data branch
of the seasonal method is unreachable because
`n < 2 * min(12, floor(n/4))` never holds. -/
theorem forecasts_ten_points_monotone_confidence :
    (∀ parsed : List (Option ℚ),
      (Forecast.performLinearRegressionForecast parsed).length = 10 ∧
      List.Chain' (fun a b : ℚ => b ≤ a)
        (Forecast.confSeq (Forecast.performLinearRegressionForecast parsed))) ∧
    (∀ (rand : ℕ → ℚ) (parsed : List (Option ℚ)),
      (Forecast.performMovingAverageForecast rand parsed).length = 10 ∧
      List.Chain' (fun a b : ℚ => b ≤ a)
        (Forecast.confSeq (Forecast.performMovingAverageForecast rand parsed))) ∧
    (∀ parsed : List (Option ℚ),
      (Forecast.performExponentialSmoothingForecast parsed).length = 10 ∧
      List.Chain' (fun a b : ℚ => b ≤ a)
        (Forecast.confSeq (Forecast.performExponentialSmoothingForecast parsed))) ∧
    (∀ parsed : List (Option ℚ),
      (Forecast.performSeasonalAnalysisForecast parsed).length = 10 ∧
      List.Chain' (fun a b : ℚ => b ≤ a)
        (Forecast.confSeq (Forecast.performSeasonalAnalysisForecast parsed))) := by
  refine ⟨fun parsed => ⟨?_, ?_⟩, fun rand parsed => ⟨?_, ?_⟩,
    fun parsed => ⟨?_, ?_⟩, fun parsed => ⟨?_, ?_⟩⟩
  · simp [Forecast.performLinearRegressionForecast]
  · simp only [Forecast.performLinearRegressionForecast, Forecast.confSeq,
      List.range_succ, List.range_zero, List.map_append, List.map_cons,
      List.map_nil, List.nil_append, List.cons_append, List.chain'_cons,
      List.chain'_singleton, List.chain'_nil]
    norm_num [max_def]
  · simp [Forecast.performMovingAverageForecast]
  · simp only [Forecast.performMovingAverageForecast, Forecast.confSeq,
      List.range_succ, List.range_zero, List.map_append, List.map_cons,
      List.map_nil, List.nil_append, List.cons_append, List.chain'_cons,
      List.chain'_singleton, List.chain'_nil]
    norm_num [max_def]
  · simp [Forecast.performExponentialSmoothingForecast]
  · simp only [Forecast.performExponentialSmoothingForecast, Forecast.confSeq,
      List.range_succ, List.range_zero, List.map_append, List.map_cons,
      List.map_nil, List.nil_append, List.cons_append, List.chain'_cons,
      List.chain'_singleton, List.chain'_nil]
    norm_num [max_def]
  · simp only [Forecast.performSeasonalAnalysisForecast]
    rw [if_neg (seasonal_guard_false _)]
    simp
  · simp only [Forecast.performSeasonalAnalysisForecast]
    rw [if_neg (seasonal_guard_false _)]
    simp only [Forecast.confSeq,
      List.range_succ, List.range_zero, List.map_append, List.map_cons,
      List.map_nil, List.nil_append, List.cons_append, List.chain'_cons,
      List.chain'_singleton, List.chain'_nil]
    norm_num [max_def]

theorem foldl_fadd_none (l : List (Option ℚ)) : l.foldl JsNum.fadd none = none := by
  induction l with
  | nil => rfl
  | cons x rest ih =>
    have hx : JsNum.fadd none x = none := by cases x <;> rfl
    rw [List.foldl_cons, hx, ih]

theorem sumF_fsq_aux {α : Type} (l : List α) (f : α → Option ℚ) :
    ∀ a s : ℚ, (l.map (fun p => JsNum.fsq (f p))).foldl JsNum.fadd (some a) = some s →
      a ≤ s ∧ (s = a ↔ ∀ p ∈ l, f p = some 0) := by
  induction l with
  | nil =>
    intro a s h
    simp only [List.map_nil, List.foldl_nil, Option.some.injEq] at h
    subst h
    simp
  | cons x rest ih =>
    intro a s h
    rw [List.map_cons, List.foldl_cons] at h
    cases hx : f x with
    | none =>
      rw [hx] at h
      have e : JsNum.fadd (some a) (JsNum.fsq none) = none := rfl
      rw [e, foldl_fadd_none] at h
      exact absurd h (by simp)
    | some q =>
      rw [hx] at h
      have e : JsNum.fadd (some a) (JsNum.fsq (some q)) = some (a + q * q) := rfl
      rw [e] at h
      obtain ⟨h1, h2⟩ := ih (a + q * q) s h
      have hqq : 0 ≤ q * q := mul_self_nonneg q
      refine ⟨by linarith, ?_, ?_⟩
      · intro hs
        have hq : q = 0 := by nlinarith
        intro p hp
        rcases List.mem_cons.mp hp with hpx | hpr
        · rw [hpx, hx, hq]
        · have hrest := h2.mp (by rw [hs]; rw [hq]; ring)
          exact hrest p hpr
      · intro hall
        have hq : q = 0 := by
          have := hall x (List.mem_cons_self x rest)
          rw [hx] at this
          exact Option.some.inj this
        have hrest : ∀ p ∈ rest, f p = some 0 :=
          fun p hp => hall p (List.mem_cons_of_mem x hp)
        have := h2.mpr hrest
        rw [this, hq]
        ring

theorem rSquared_le_one_iff {α : Type} (ps : List α) (f : α → Option ℚ)
    (ssTot r : ℚ) (hTot : 0 ≤ ssTot)
    (h : JsNum.fsub (some 1)
      (JsNum.fdiv (JsNum.sumF (ps.map (fun p => JsNum.fsq (f p)))) (some ssTot)) = some r) :
    r ≤ 1 ∧ (r = 1 ↔ ∀ p ∈ ps, f p = some 0) := by
  cases hS : JsNum.sumF (ps.map (fun p => JsNum.fsq (f p))) with
  | none => rw [hS] at h; simp [JsNum.fdiv, JsNum.fsub] at h
  | some s =>
    rw [hS] at h
    by_cases hz : ssTot = 0
    · simp [JsNum.fdiv, hz, JsNum.fsub] at h
    · have hfd : JsNum.fdiv (some s) (some ssTot) = some (s / ssTot) := by
        simp [JsNum.fdiv, hz]
      rw [hfd] at h
      have hr : r = 1 - s / ssTot := by
        have := Option.some.inj (by simpa [JsNum.fsub] using h)
        exact this.symm
      obtain ⟨h1, h2⟩ := sumF_fsq_aux ps f 0 s (by simpa [JsNum.sumF] using hS)
      have hpos : 0 < ssTot := lt_of_le_of_ne hTot (Ne.symm hz)
      have hdvnn : 0 ≤ s / ssTot := div_nonneg h1 hTot
      constructor
      · rw [hr]; linarith
      · rw [hr]
        constructor
        · intro he
          have hs0 : s / ssTot = 0 := by linarith
          have hs : s = 0 := by
            rcases div_eq_zero_iff.mp hs0 with hs | hbad
            · exact hs
            · exact absurd hbad hz
          exact h2.mp hs
        · intro hall
          rw [h2.mpr hall]
          simp

theorem sum_sq_nonneg {α : Type} (l : List α) (g : α → ℚ) :
    0 ≤ (l.map (fun p => g p ^ 2)).sum := by
  apply List.sum_nonneg
  intro x hx
  obtain ⟨p, _, rfl⟩ := List.mem_map.mp hx
  positivity

/-- C1 (amended): for each regression variant, whenever the reported R²
is an actual finite number r, r ≤ 1, and r = 1 exactly when every
residual is zero; at degenerate inputs (constant target giving
SStotal = 0, or a singular normal system making predictions non-finite)
the code instead reports a non-finite R², which no real number bounds. -/
theorem rSquared_at_most_one :
    (∀ (data : List (Option ℚ × Option ℚ)) (res : Reg.RegResult) (r : ℚ),
      Reg.performSimpleLinearRegression data = .ok res → res.rSquared = some r →
      r ≤ 1 ∧ (r = 1 ↔ ∀ p ∈ res.predictions, p.residual = some 0)) ∧
    (∀ (numFeatures : ℕ) (data : List (List (Option ℚ) × Option ℚ))
      (res : Reg.MultiResult) (r : ℚ),
      Reg.performMultipleLinearRegression numFeatures data = .ok res →
      res.rSquared = some r →
      r ≤ 1 ∧ (r = 1 ↔ ∀ p ∈ res.predictions, p.residual = some 0)) ∧
    (∀ (data : List (Option ℚ × Option ℚ)) (res : Reg.RegResult) (r : ℚ),
      Reg.performPolynomialRegression data = .ok res → res.rSquared = some r →
      r ≤ 1 ∧ (r = 1 ↔ ∀ p ∈ res.predictions, p.residual = some 0)) := by
  refine ⟨fun data res r hok hr => ?_, fun nf data res r hok hr => ?_,
    fun data res r hok hr => ?_⟩
  · simp only [Reg.performSimpleLinearRegression] at hok
    split at hok
    · exact absurd hok (by simp)
    · simp only [Except.ok.injEq] at hok
      subst hok
      simp only at hr
      exact rSquared_le_one_iff _ (fun p : Reg.PredPoint => p.residual) _ r
        (sum_sq_nonneg _ _) hr
  · simp only [Reg.performMultipleLinearRegression] at hok
    split at hok
    · exact absurd hok (by simp)
    · simp only [Except.ok.injEq] at hok
      subst hok
      simp only at hr
      exact rSquared_le_one_iff _ (fun p : Reg.PredPoint => p.residual) _ r
        (sum_sq_nonneg _ _) hr
  · simp only [Reg.performPolynomialRegression] at hok
    split at hok
    · exact absurd hok (by simp)
    · simp only [Except.ok.injEq] at hok
      subst hok
      simp only at hr
      exact rSquared_le_one_iff _ (fun p : Reg.PredPoint => p.residual) _ r
        (sum_sq_nonneg _ _) hr

theorem simple_eval_perfect :
    Reg.performSimpleLinearRegression
      [(some 1, some 1), (some 2, some 2), (some 3, some 3)] =
      .ok (Reg.RegResult.mk (some 1) (some 0) (some 1)
        [Reg.PredPoint.mk 1 1 (some 1) (some 0),
         Reg.PredPoint.mk 2 2 (some 2) (some 0),
         Reg.PredPoint.mk 3 3 (some 3) (some 0)]) := by
  have hp : Reg.simplePairs [(some 1, some 1), (some 2, some 2), (some 3, some 3)] =
      [(1, 1), (2, 2), (3, 3)] := by
    norm_num [Reg.simplePairs, List.filterMap_cons]
  rw [Reg.performSimpleLinearRegression, hp]
  norm_num [JsNum.fdiv, JsNum.fadd, JsNum.fmul, JsNum.fsub, JsNum.sumF, JsNum.fsq]

/-- Witness for C1 at the perfect fit y = x on three points: the run
succeeds, reports R² = 1, and every residual is zero. -/
theorem rSquared_at_most_one_witness :
    Reg.performSimpleLinearRegression
      [(some 1, some 1), (some 2, some 2), (some 3, some 3)] =
      .ok (Reg.RegResult.mk (some 1) (some 0) (some 1)
        [Reg.PredPoint.mk 1 1 (some 1) (some 0),
         Reg.PredPoint.mk 2 2 (some 2) (some 0),
         Reg.PredPoint.mk 3 3 (some 3) (some 0)]) ∧
    ((1 : ℚ) ≤ 1 ∧ ((1 : ℚ) = 1 ↔
      ∀ p ∈ [Reg.PredPoint.mk 1 1 (some 1) (some 0),
        Reg.PredPoint.mk 2 2 (some 2) (some 0),
        Reg.PredPoint.mk 3 3 (some 3) (some 0)], p.residual = some 0)) :=
  ⟨simple_eval_perfect,
    rSquared_at_most_one.1 _ _ 1 simple_eval_perfect rfl⟩

/-- Counterexample to C1 as stated: on the valid two-observation input
with constant target y = 5 the run succeeds but SStotal is zero, so the
reported R² is the non-finite NaN, and the JavaScript comparison
rSquared ≤ 1 is false. -/
theorem rSquared_nan_on_constant_target :
    (Reg.performSimpleLinearRegression
      [(some 1, some 5), (some 2, some 5)]).toOption.map
      (fun res => JsNum.fle res.rSquared (some 1)) = some false := by
  have hp : Reg.simplePairs [(some 1, some 5), (some 2, some 5)] =
      [(1, 5), (2, 5)] := by
    norm_num [Reg.simplePairs, List.filterMap_cons]
  rw [Reg.performSimpleLinearRegression, hp]
  norm_num [JsNum.fdiv, JsNum.fadd, JsNum.fmul, JsNum.fsub, JsNum.sumF,
    JsNum.fsq, JsNum.fle, Except.toOption]

set_option maxHeartbeats 1000000 in
theorem bs_eval : Reg.backSub 3
    [[some 6, some 14, some 14, some 14],
     [some 0, some (-1), some (-1), some (-1)],
     [some 0, some 0, some 0, some 0]] = [none, none, none] := by
  norm_num [Reg.backSub, Reg.getF, JsNum.fdiv, JsNum.fsub, JsNum.fmul,
    show (List.range 3).reverse = [2,1,0] from rfl,
    show (List.range 3).drop 3 = [] from rfl,
    show (List.range 3).drop 2 = [2] from rfl,
    show (List.range 3).drop 1 = [1,2] from rfl,
    List.getD_cons_zero, List.getD_cons_succ, List.set,
    List.foldl_cons, List.foldl_nil, List.replicate]

set_option maxHeartbeats 1000000 in
theorem fe_eval : Reg.forwardElim 3
    [[some 3, some 6, some 6, some 6],
     [some 6, some 14, some 14, some 14],
     [some 6, some 14, some 14, some 14]] =
    [[some 6, some 14, some 14, some 14],
     [some 0, some (-1), some (-1), some (-1)],
     [some 0, some 0, some 0, some 0]] := by
  have hpiv0 : Reg.pivotRow
      [[some 3, some 6, some 6, some 6],
       [some 6, some 14, some 14, some 14],
       [some 6, some 14, some 14, some 14]] 3 0 = 1 := by decide
  have hsw0 : Reg.swapRows
      [[some 3, some 6, some 6, some 6],
       [some 6, some 14, some 14, some 14],
       [some 6, some 14, some 14, some 14]] 0 1 =
      [[some 6, some 14, some 14, some 14],
       [some 3, some 6, some 6, some 6],
       [some 6, some 14, some 14, some 14]] := by decide
  have he01 : Reg.elimRow
      [[some 6, some 14, some 14, some 14],
       [some 3, some 6, some 6, some 6],
       [some 6, some 14, some 14, some 14]] 3 0 1 =
      [[some 6, some 14, some 14, some 14],
       [some 0, some (-1), some (-1), some (-1)],
       [some 6, some 14, some 14, some 14]] := by
    norm_num [Reg.elimRow, Reg.getF, Reg.setF, JsNum.fdiv, JsNum.fsub, JsNum.fmul,
      show (List.range 4).drop (0 : ℕ) = [0,1,2,3] from rfl,
      List.getD_cons_zero, List.getD_cons_succ, List.set]
  have he02 : Reg.elimRow
      [[some 6, some 14, some 14, some 14],
       [some 0, some (-1), some (-1), some (-1)],
       [some 6, some 14, some 14, some 14]] 3 0 2 =
      [[some 6, some 14, some 14, some 14],
       [some 0, some (-1), some (-1), some (-1)],
       [some 0, some 0, some 0, some 0]] := by
    norm_num [Reg.elimRow, Reg.getF, Reg.setF, JsNum.fdiv, JsNum.fsub, JsNum.fmul,
      show (List.range 4).drop (0 : ℕ) = [0,1,2,3] from rfl,
      List.getD_cons_zero, List.getD_cons_succ, List.set]
  have hpiv1 : Reg.pivotRow
      [[some 6, some 14, some 14, some 14],
       [some 0, some (-1), some (-1), some (-1)],
       [some 0, some 0, some 0, some 0]] 3 1 = 1 := by decide
  have hsw1 : Reg.swapRows
      [[some 6, some 14, some 14, some 14],
       [some 0, some (-1), some (-1), some (-1)],
       [some 0, some 0, some 0, some 0]] 1 1 =
      [[some 6, some 14, some 14, some 14],
       [some 0, some (-1), some (-1), some (-1)],
       [some 0, some 0, some 0, some 0]] := by decide
  have he12 : Reg.elimRow
      [[some 6, some 14, some 14, some 14],
       [some 0, some (-1), some (-1), some (-1)],
       [some 0, some 0, some 0, some 0]] 3 1 2 =
      [[some 6, some 14, some 14, some 14],
       [some 0, some (-1), some (-1), some (-1)],
       [some 0, some 0, some 0, some 0]] := by
    norm_num [Reg.elimRow, Reg.getF, Reg.setF, JsNum.fdiv, JsNum.fsub, JsNum.fmul,
      show (List.range 4).drop (1 : ℕ) = [1,2,3] from rfl,
      List.getD_cons_zero, List.getD_cons_succ, List.set]
  have hpiv2 : Reg.pivotRow
      [[some 6, some 14, some 14, some 14],
       [some 0, some (-1), some (-1), some (-1)],
       [some 0, some 0, some 0, some 0]] 3 2 = 2 := by decide
  have hsw2 : Reg.swapRows
      [[some 6, some 14, some 14, some 14],
       [some 0, some (-1), some (-1), some (-1)],
       [some 0, some 0, some 0, some 0]] 2 2 =
      [[some 6, some 14, some 14, some 14],
       [some 0, some (-1), some (-1), some (-1)],
       [some 0, some 0, some 0, some 0]] := by decide
  rw [Reg.forwardElim, show List.range 3 = [0,1,2] from rfl]
  simp only [List.foldl_cons, List.foldl_nil]
  rw [hpiv0, hsw0]
  simp only [show ([0,1,2] : List ℕ).drop (0 + 1) = [1, 2] from rfl,
    List.foldl_cons, List.foldl_nil]
  rw [he01, he02, hpiv1, hsw1]
  simp only [show ([0,1,2] : List ℕ).drop (1 + 1) = [2] from rfl,
    List.foldl_cons, List.foldl_nil]
  rw [he12, hpiv2, hsw2]
  simp only [show ([0,1,2] : List ℕ).drop (2 + 1) = ([] : List ℕ) from rfl,
    List.foldl_nil]

theorem gauss_eval : Reg.gaussianElimination
    [[some 3, some 6, some 6], [some 6, some 14, some 14], [some 6, some 14, some 14]]
    [some 6, some 14, some 14] = [none, none, none] := by
  rw [show Reg.gaussianElimination
      [[some 3, some 6, some 6], [some 6, some 14, some 14], [some 6, some 14, some 14]]
      [some 6, some 14, some 14] =
    Reg.backSub 3 (Reg.forwardElim 3
      [[some 3, some 6, some 6, some 6],
       [some 6, some 14, some 14, some 14],
       [some 6, some 14, some 14, some 14]]) from rfl]
  rw [fe_eval, bs_eval]

set_option maxHeartbeats 1000000 in
theorem solve_eval : Reg.solveNormalEquation
    [[1, 1, 1], [1, 2, 2], [1, 3, 3]] [1, 2, 3] = [none, none, none] := by
  have h : Reg.solveNormalEquation [[1, 1, 1], [1, 2, 2], [1, 3, 3]] [1, 2, 3] =
      Reg.gaussianElimination
        [[some 3, some 6, some 6], [some 6, some 14, some 14], [some 6, some 14, some 14]]
        [some 6, some 14, some 14] := by
    rw [Reg.solveNormalEquation]
    norm_num [show List.range 3 = [0,1,2] from rfl,
      List.getD_cons_zero, List.getD_cons_succ]
  rw [h, gauss_eval]

set_option maxHeartbeats 1000000 in
/-- C10: with the two selected feature columns identical (rows x = [1,1],
[2,2], [3,3], target y = x), XᵗX is singular; the Gaussian elimination
divides a zero pivot in back substitution, and the regression returns
normally (no thrown error) with non-finite rSquared, intercept,
coefficients and predictions. -/
theorem singular_system_nonfinite :
    (Reg.performMultipleLinearRegression 2
      [([some 1, some 1], some 1), ([some 2, some 2], some 2),
       ([some 3, some 3], some 3)]).toOption.map
      (fun res => (res.rSquared, res.intercept,
        res.coefficients.map (fun c => c.coefficient),
        res.predictions.map (fun p => p.predicted))) =
      some (none, none, [none, none], [none, none, none]) := by
  have hclean : Reg.multiCleanData
      [([some 1, some 1], some 1), ([some 2, some 2], some 2),
       ([some 3, some 3], some 3)] =
      [([1, 1], 1), ([2, 2], 2), ([3, 3], 3)] := by decide
  rw [Reg.performMultipleLinearRegression, hclean]
  simp only [List.length_cons, List.length_nil, List.map_cons, List.map_nil]
  norm_num [solve_eval, Reg.predRow, Reg.maxF, Reg.jsOr0, JsNum.fadd, JsNum.fmul,
    JsNum.fsub, JsNum.fdiv, JsNum.fsq, JsNum.sumF, JsNum.fabs, JsNum.fgt,
    Except.toOption, List.enum, show List.range 2 = [0,1] from rfl,
    List.getD_cons_zero, List.getD_cons_succ]

namespace Pearson

theorem pairsOf_swap (data : List (String → Option ℝ)) (c1 c2 : String) :
    pairsOf data c2 c1 = (pairsOf data c1 c2).map Prod.swap := by
  induction data with
  | nil => rfl
  | cons row rest ih =>
    simp only [pairsOf, List.filterMap_cons] at ih ⊢
    cases h1 : row c1 <;> cases h2 : row c2 <;> simp [h1, h2, ih, Prod.swap]

theorem pairsOf_diag (data : List (String → Option ℝ)) (c : String) :
    pairsOf data c c = (validValues data c).map (fun x => (x, x)) := by
  induction data with
  | nil => rfl
  | cons row rest ih =>
    simp only [pairsOf, validValues, List.filterMap_cons] at ih ⊢
    cases h : row c <;> simp [h, ih]

theorem sum_sq_shift (xs : List ℝ) (c : ℝ) :
    (xs.map (fun x => (x - c) * (x - c))).sum =
    (xs.map (fun x => x * x)).sum - 2 * c * xs.sum + xs.length * c * c := by
  induction xs with
  | nil => simp
  | cons a t ih =>
    simp only [List.map_cons, List.sum_cons, List.length_cons, ih]
    push_cast
    ring

theorem var_pos {xs : List ℝ} {x y : ℝ} (hx : x ∈ xs) (hy : y ∈ xs)
    (hxy : x ≠ y) :
    0 < (xs.length : ℝ) * (xs.map (fun t => t * t)).sum - xs.sum * xs.sum := by
  have hne : xs ≠ [] := by rintro rfl; simp at hx
  have hn : 0 < (xs.length : ℝ) := by
    exact_mod_cast List.length_pos.mpr hne
  have key : (xs.length : ℝ) * (xs.map (fun t => (t - xs.sum / xs.length) *
      (t - xs.sum / xs.length))).sum =
      (xs.length : ℝ) * (xs.map (fun t => t * t)).sum - xs.sum * xs.sum := by
    rw [sum_sq_shift]
    field_simp
    ring
  have hex : ∃ t ∈ xs, t ≠ xs.sum / xs.length := by
    by_contra hc
    push_neg at hc
    exact hxy ((hc x hx).trans (hc y hy).symm)
  obtain ⟨t, ht, htne⟩ := hex
  have hmem : (t - xs.sum / xs.length) * (t - xs.sum / xs.length) ∈
      xs.map (fun s => (s - xs.sum / xs.length) * (s - xs.sum / xs.length)) :=
    List.mem_map_of_mem _ ht
  have hnonneg : ∀ a ∈ xs.map (fun s => (s - xs.sum / xs.length) *
      (s - xs.sum / xs.length)), 0 ≤ a := by
    intro a ha
    obtain ⟨s, _, rfl⟩ := List.mem_map.mp ha
    exact mul_self_nonneg _
  have htpos : 0 < (t - xs.sum / xs.length) * (t - xs.sum / xs.length) := by
    have hd : t - xs.sum / xs.length ≠ 0 := sub_ne_zero.mpr htne
    exact lt_of_le_of_ne (mul_self_nonneg _) (Ne.symm (mul_ne_zero hd hd))
  have hsum : 0 < (xs.map (fun s => (s - xs.sum / xs.length) *
      (s - xs.sum / xs.length))).sum :=
    lt_of_lt_of_le htpos (List.single_le_sum hnonneg _ hmem)
  have := mul_pos hn hsum
  linarith [key]

theorem two_le_length {α : Type} {xs : List α} {x y : α} (hx : x ∈ xs)
    (hy : y ∈ xs) (hxy : x ≠ y) : 2 ≤ xs.length := by
  cases xs with
  | nil => simp at hx
  | cons a t =>
    cases t with
    | nil =>
      simp only [List.mem_singleton] at hx hy
      exact absurd (hx.trans hy.symm) hxy
    | cons b u => simp only [List.length_cons]; omega

end Pearson

/-- C3: Pearson correlation is symmetric in its two columns, and the
correlation of a column with itself is 1 whenever its valid paired
values are not all identical. -/
theorem pearson_symm_and_self_one :
    (∀ (data : List (String → Option ℝ)) (c1 c2 : String),
      Pearson.calculatePearsonCorrelation data c1 c2 =
      Pearson.calculatePearsonCorrelation data c2 c1) ∧
    (∀ (data : List (String → Option ℝ)) (c : String),
      (∃ x ∈ Pearson.validValues data c, ∃ y ∈ Pearson.validValues data c, x ≠ y) →
      Pearson.calculatePearsonCorrelation data c c = 1) := by
  constructor
  · intro data c1 c2
    simp only [Pearson.calculatePearsonCorrelation]
    rw [Pearson.pairsOf_swap data c1 c2]
    simp only [List.length_map, List.map_map]
    by_cases hl : (Pearson.pairsOf data c1 c2).length < 2
    · simp [hl]
    · simp only [hl, if_false]
      have e1 : ((Pearson.pairsOf data c1 c2).map ((fun p : ℝ × ℝ => p.1) ∘ Prod.swap)) =
          (Pearson.pairsOf data c1 c2).map (fun p => p.2) := rfl
      have e2 : ((Pearson.pairsOf data c1 c2).map ((fun p : ℝ × ℝ => p.2) ∘ Prod.swap)) =
          (Pearson.pairsOf data c1 c2).map (fun p => p.1) := rfl
      have e3 : ((Pearson.pairsOf data c1 c2).map ((fun p : ℝ × ℝ => p.1 * p.2) ∘ Prod.swap)) =
          (Pearson.pairsOf data c1 c2).map (fun p => p.1 * p.2) := by
        apply List.map_congr_left
        intro a _
        exact mul_comm a.2 a.1
      have e4 : ((Pearson.pairsOf data c1 c2).map ((fun p : ℝ × ℝ => p.1 * p.1) ∘ Prod.swap)) =
          (Pearson.pairsOf data c1 c2).map (fun p => p.2 * p.2) := rfl
      have e5 : ((Pearson.pairsOf data c1 c2).map ((fun p : ℝ × ℝ => p.2 * p.2) ∘ Prod.swap)) =
          (Pearson.pairsOf data c1 c2).map (fun p => p.1 * p.1) := rfl
      rw [e1, e2, e3, e4, e5]
      rw [mul_comm ((Pearson.pairsOf data c1 c2).length *
        ((Pearson.pairsOf data c1 c2).map (fun p => p.2 * p.2)).sum -
        ((Pearson.pairsOf data c1 c2).map (fun p => p.2)).sum *
        ((Pearson.pairsOf data c1 c2).map (fun p => p.2)).sum)]
      rw [mul_comm (((Pearson.pairsOf data c1 c2).map (fun p => p.2)).sum)
        (((Pearson.pairsOf data c1 c2).map (fun p => p.1)).sum)]
  · intro data c h
    obtain ⟨x, hx, y, hy, hxy⟩ := h
    have hpairs := Pearson.pairsOf_diag data c
    have hlen2 : 2 ≤ (Pearson.validValues data c).length :=
      Pearson.two_le_length hx hy hxy
    have hD := Pearson.var_pos hx hy hxy
    simp only [Pearson.calculatePearsonCorrelation, hpairs, List.length_map,
      List.map_map]
    rw [if_neg (by omega)]
    have d1 : ((Pearson.validValues data c).map ((fun p : ℝ × ℝ => p.1) ∘ fun t => (t, t))) =
        (Pearson.validValues data c).map (fun t => t) := rfl
    have d2 : ((Pearson.validValues data c).map ((fun p : ℝ × ℝ => p.2) ∘ fun t => (t, t))) =
        (Pearson.validValues data c).map (fun t => t) := rfl
    have d3 : ((Pearson.validValues data c).map ((fun p : ℝ × ℝ => p.1 * p.2) ∘ fun t => (t, t))) =
        (Pearson.validValues data c).map (fun t => t * t) := rfl
    have d4 : ((Pearson.validValues data c).map ((fun p : ℝ × ℝ => p.1 * p.1) ∘ fun t => (t, t))) =
        (Pearson.validValues data c).map (fun t => t * t) := rfl
    have d5 : ((Pearson.validValues data c).map ((fun p : ℝ × ℝ => p.2 * p.2) ∘ fun t => (t, t))) =
        (Pearson.validValues data c).map (fun t => t * t) := rfl
    rw [d1, d2, d3, d4, d5, List.map_id']
    have hsqrt : Real.sqrt
        (((Pearson.validValues data c).length *
          ((Pearson.validValues data c).map (fun t => t * t)).sum -
          (Pearson.validValues data c).sum * (Pearson.validValues data c).sum) *
         ((Pearson.validValues data c).length *
          ((Pearson.validValues data c).map (fun t => t * t)).sum -
          (Pearson.validValues data c).sum * (Pearson.validValues data c).sum)) =
        (Pearson.validValues data c).length *
          ((Pearson.validValues data c).map (fun t => t * t)).sum -
          (Pearson.validValues data c).sum * (Pearson.validValues data c).sum :=
      Real.sqrt_mul_self (le_of_lt hD)
    rw [hsqrt, if_neg (ne_of_gt hD)]
    exact div_self (ne_of_gt hD)

/-- Witness for C3 at a two-row dataset whose column a parses to the
distinct values 1 and 2: the self-correlation is 1. -/
theorem pearson_self_one_witness :
    (∃ x ∈ Pearson.validValues [fun _ => some 1, fun _ => some 2] "a",
      ∃ y ∈ Pearson.validValues [fun _ => some 1, fun _ => some 2] "a", x ≠ y) ∧
    Pearson.calculatePearsonCorrelation
      [fun _ => some 1, fun _ => some 2] "a" "a" = 1 := by
  have hv : Pearson.validValues [fun _ => some (1 : ℝ), fun _ => some 2] "a" =
      [1, 2] := rfl
  have h : ∃ x ∈ Pearson.validValues
      [fun _ => some (1 : ℝ), fun _ => some 2] "a",
      ∃ y ∈ Pearson.validValues [fun _ => some (1 : ℝ), fun _ => some 2] "a",
      x ≠ y := by
    rw [hv]
    exact ⟨1, by simp, 2, by simp, by norm_num⟩
  exact ⟨h, pearson_symm_and_self_one.2 _ "a" h⟩

set_option maxHeartbeats 1000000 in
/-- C9: evaluation at a failing clustering.  Labels [0, 1] over the two
coincident points [0,0], [0,0] put one point alone in cluster 0 (a
degenerate, size-1 cluster).  For that point a = 0 and b = 0, so the
per-point silhouette (b - a) / max(a, b) is the division 0 / 0, and the
averaged dataset score is non-finite instead of a well-defined number. -/
theorem silhouette_division_by_zero :
    (([0, 1] : List ℕ).filter (fun l => l = 0)).length = 1 ∧
    Cluster.calculateSilhouetteScore [[0, 0], [0, 0]] [0, 1] [[0, 0], [5, 5]] = none := by
  constructor
  · decide
  · norm_num [Cluster.calculateSilhouetteScore, Cluster.sumOptR, Cluster.silhouetteOf,
      Cluster.aOf, Cluster.bOf, Cluster.euclideanDistance, Cluster.dist2,
      List.range_succ, List.enum, List.enumFrom, Real.sqrt_zero,
      List.getD_cons_zero, List.getD_cons_succ]


namespace Cluster

theorem dist2_nonneg (p c : List ℝ) : 0 ≤ dist2 p c := by
  apply List.sum_nonneg
  intro x hx
  obtain ⟨i, _, rfl⟩ := List.mem_map.mp hx
  positivity

theorem euclid_sq (p c : List ℝ) : euclideanDistance p c ^ 2 = dist2 p c :=
  Real.sq_sqrt (dist2_nonneg p c)

theorem dist2_le_of_euclid_le {p c1 c2 : List ℝ}
    (h : euclideanDistance p c1 ≤ euclideanDistance p c2) :
    dist2 p c1 ≤ dist2 p c2 := by
  by_contra hlt
  push_neg at hlt
  exact absurd (Real.sqrt_lt_sqrt (dist2_nonneg p c2) hlt) (not_lt.mpr h)

theorem foldl_nearStep_good (point : List ℝ) (l : List (ℕ × List ℝ)) :
    ∀ (acc : ℕ × Option ℝ) (seen : List (ℕ × List ℝ)),
      goodAcc point acc seen →
      goodAcc point (l.foldl (nearStep point) acc) (seen ++ l) := by
  induction l with
  | nil => intro acc seen h; simpa using h
  | cons jc t ih =>
    intro acc seen h
    rw [List.foldl_cons]
    have hstep : goodAcc point (nearStep point acc jc) (seen ++ [jc]) := by
      rcases h with ⟨rfl, rfl⟩ | ⟨m, hm, ⟨pc, hpc, hpc1, hpc2⟩, hmin⟩
      · right
        refine ⟨euclideanDistance point jc.2, ?_, ⟨jc, by simp, ?_, rfl⟩, ?_⟩
        · simp [nearStep]
        · simp [nearStep]
        · intro pc hpc
          simp at hpc
          subst hpc
          simp [nearStep]
      · obtain ⟨b0, macc⟩ := acc
        cases macc with
        | none => simp at hm
        | some mv =>
          simp only at hm hpc1 hmin
          injection hm with hm
          subst hm
          by_cases hlt : euclideanDistance point jc.2 < mv
          · right
            refine ⟨euclideanDistance point jc.2, by simp [nearStep, hlt],
              ⟨jc, by simp, by simp [nearStep, hlt], rfl⟩, ?_⟩
            intro qc hqc
            rcases List.mem_append.mp hqc with hin | hin
            · exact le_trans (le_of_lt hlt) (hmin qc hin)
            · simp at hin; subst hin; exact le_refl _
          · right
            refine ⟨mv, by simp [nearStep, hlt], ⟨pc, by simp [hpc], by simp [nearStep, hlt, hpc1], hpc2⟩, ?_⟩
            intro qc hqc
            rcases List.mem_append.mp hqc with hin | hin
            · exact hmin qc hin
            · simp at hin; subst hin; exact not_lt.mp hlt
    have := ih (nearStep point acc jc) (seen ++ [jc]) hstep
    simpa [List.append_assoc] using this

theorem nearestCluster_spec (point : List ℝ) (centroids : List (List ℝ))
    (hk : centroids ≠ []) :
    nearestCluster point centroids < centroids.length ∧
    ∀ j < centroids.length,
      dist2 point (centroids.getD (nearestCluster point centroids) []) ≤
      dist2 point (centroids.getD j []) := by
  have hg := foldl_nearStep_good point centroids.enum (0, none) []
    (Or.inl ⟨rfl, rfl⟩)
  rw [List.nil_append] at hg
  rcases hg with ⟨_, hemp⟩ | ⟨m, hm, ⟨pc, hpc, hpc1, hpc2⟩, hmin⟩
  · rw [List.enum_eq_nil] at hemp
    exact absurd hemp hk
  · have hmem := List.mem_enum_iff_getElem?.mp hpc
    have hlt : pc.1 < centroids.length := by
      rcases List.getElem?_eq_some_iff.mp hmem with ⟨hl, _⟩
      exact hl
    have hget : centroids.getD pc.1 [] = pc.2 := by
      rw [List.getD_eq_getElem?_getD, hmem]
      rfl
    have hbest : nearestCluster point centroids = pc.1 := by
      rw [nearestCluster, ← hpc1]
    constructor
    · rw [hbest]; exact hlt
    · intro j hj
      have hjmem : ((j, centroids[j]) : ℕ × List ℝ) ∈ centroids.enum := by
        apply List.mem_enum_iff_getElem?.mpr
        exact List.getElem?_eq_some_iff.mpr ⟨hj, rfl⟩
      have h1 := hmin _ hjmem
      have hgj : centroids.getD j [] = centroids[j] := by
        rw [List.getD_eq_getElem?_getD, List.getElem?_eq_getElem hj]
        rfl
      apply dist2_le_of_euclid_le
      rw [hbest, hget, hgj]
      calc euclideanDistance point pc.2 = m := hpc2.symm
        _ ≤ euclideanDistance point centroids[j] := h1

theorem inertia_eq_dist2 (points : List (List ℝ)) (s : List (List ℝ) × List ℕ) :
    inertia points s =
    (points.enum.map (fun q => dist2 q.2 (s.1.getD (s.2.getD q.1 0) []))).sum := by
  unfold inertia
  congr 1
  apply List.map_congr_left
  intro q _
  exact euclid_sq _ _

theorem assign_le (points : List (List ℝ)) (C : List (List ℝ))
    (labels : List ℕ) (hk : C ≠ []) (hlab : ∀ l ∈ labels, l < C.length) :
    inertia points (C, assignLabels points C) ≤ inertia points (C, labels) := by
  rw [inertia_eq_dist2, inertia_eq_dist2]
  apply List.sum_le_sum
  intro q hq
  have hmem := List.mem_enum_iff_getElem?.mp hq
  have hq1 : q.1 < points.length := (List.getElem?_eq_some_iff.mp hmem).1
  have hq2 : points[q.1] = q.2 := by
    have := List.getElem?_eq_getElem hq1
    rw [hmem] at this
    exact (Option.some.inj this).symm
  have hnew : (assignLabels points C).getD q.1 0 = nearestCluster q.2 C := by
    rw [assignLabels, List.getD_eq_getElem?_getD, List.getElem?_map,
      List.getElem?_eq_getElem hq1]
    simp [hq2]
  have hold : labels.getD q.1 0 < C.length := by
    by_cases hql : q.1 < labels.length
    · have : labels.getD q.1 0 = labels[q.1] := by
        rw [List.getD_eq_getElem?_getD, List.getElem?_eq_getElem hql]
        rfl
      rw [this]
      exact hlab _ (List.getElem_mem hql)
    · have : labels.getD q.1 0 = 0 := by
        rw [List.getD_eq_getElem?_getD, List.getElem?_eq_none (by omega)]
        rfl
      rw [this]
      exact List.length_pos.mpr hk
  simp only
  rw [hnew]
  exact (nearestCluster_spec q.2 C hk).2 _ hold

theorem sum_map_add_pointwise {α : Type} (l : List α) (f g : α → ℝ) :
    (l.map (fun x => f x + g x)).sum = (l.map f).sum + (l.map g).sum := by
  induction l with
  | nil => simp
  | cons a t ih => simp [ih]; ring

theorem sum_fubini {α : Type} (S : List α) (d : ℕ) (h : α → ℕ → ℝ) :
    (S.map (fun p => ((List.range d).map (fun dim => h p dim)).sum)).sum =
    ((List.range d).map (fun dim => (S.map (fun p => h p dim)).sum)).sum := by
  induction S with
  | nil => simp [List.map_const]
  | cons a t ih =>
    simp only [List.map_cons, List.sum_cons, ih]
    rw [← sum_map_add_pointwise]

theorem sum_map_ite_single (l : List ℕ) (hnd : l.Nodup) (j0 : ℕ)
    (hj0 : j0 ∈ l) (G : ℕ → ℝ) (c : ℝ) :
    (l.map (fun j => G j + if j = j0 then c else 0)).sum = (l.map G).sum + c := by
  induction l with
  | nil => simp at hj0
  | cons a t ih =>
    rcases List.mem_cons.mp hj0 with heq | hmem
    · have hnot : j0 ∉ t := by
        rw [heq]
        exact (List.nodup_cons.mp hnd).1
      simp only [List.map_cons, List.sum_cons, if_pos heq.symm]
      have hmap : t.map (fun j => G j + if j = j0 then c else 0) = t.map G := by
        apply List.map_congr_left
        intro j hj
        rw [if_neg (by rintro rfl; exact hnot hj)]
        ring
      rw [hmap]
      ring
    · have hne : a ≠ j0 := by
        rintro rfl
        exact (List.nodup_cons.mp hnd).1 hmem
      simp only [List.map_cons, List.sum_cons, if_neg hne]
      rw [ih (List.nodup_cons.mp hnd).2 hmem]
      ring

theorem sum_partition {α : Type} (l : List α) (key : α → ℕ) (k : ℕ)
    (hkey : ∀ a ∈ l, key a < k) (g : α → ℝ) :
    (l.map g).sum = ((List.range k).map (fun j =>
      ((l.filter (fun a => key a = j)).map g).sum)).sum := by
  induction l with
  | nil => simp [List.map_const]
  | cons a t ih =>
    have hrec := ih (fun x hx => hkey x (List.mem_cons_of_mem a hx))
    simp only [List.map_cons, List.sum_cons]
    rw [hrec]
    have hpt : ∀ j ∈ List.range k,
        (((a :: t).filter (fun x => key x = j)).map g).sum =
        ((t.filter (fun x => key x = j)).map g).sum +
          if j = key a then g a else 0 := by
      intro j _
      by_cases hj : key a = j
      · rw [List.filter_cons_of_pos (by simp [hj])]
        simp [hj.symm]
        ring
      · rw [List.filter_cons_of_neg (by simp [hj])]
        rw [if_neg (fun hc => hj hc.symm)]
        ring
    rw [List.map_congr_left hpt]
    rw [sum_map_ite_single (List.range k) (List.nodup_range k) (key a)
      (List.mem_range.mpr (hkey a (List.mem_cons_self a t))) _ (g a)]
    ring

theorem sum_sq_shift2 (xs : List ℝ) (c : ℝ) :
    (xs.map (fun x => (x - c) ^ 2)).sum =
    (xs.map (fun x => x ^ 2)).sum - 2 * c * xs.sum + xs.length * c ^ 2 := by
  induction xs with
  | nil => simp
  | cons a t ih =>
    simp only [List.map_cons, List.sum_cons, List.length_cons, ih]
    push_cast
    ring

theorem mean_min_1d (xs : List ℝ) (hne : xs ≠ []) (c : ℝ) :
    (xs.map (fun x => (x - xs.sum / xs.length) ^ 2)).sum ≤
    (xs.map (fun x => (x - c) ^ 2)).sum := by
  have hn : (0 : ℝ) < xs.length := by exact_mod_cast List.length_pos.mpr hne
  have h1 := sum_sq_shift2 xs c
  have h2 := sum_sq_shift2 xs (xs.sum / xs.length)
  have key : (xs.map (fun x => (x - c) ^ 2)).sum -
      (xs.map (fun x => (x - xs.sum / xs.length) ^ 2)).sum =
      xs.length * (c - xs.sum / xs.length) ^ 2 := by
    rw [h1, h2]
    field_simp
    ring
  nlinarith [mul_nonneg hn.le (sq_nonneg (c - xs.sum / xs.length)), key]

theorem getD_range_map (f : ℕ → ℝ) {dim d : ℕ} (hdim : dim < d) :
    ((List.range d).map f).getD dim 0 = f dim := by
  rw [List.getD_eq_getElem?_getD, List.getElem?_map, List.getElem?_range hdim]
  rfl

theorem labels_getD_lt {labels : List ℕ} {k : ℕ}
    (hlab : ∀ l ∈ labels, l < k) (hk : 0 < k) (i : ℕ) :
    labels.getD i 0 < k := by
  by_cases hql : i < labels.length
  · have heq : labels.getD i 0 = labels[i] := by
      rw [List.getD_eq_getElem?_getD, List.getElem?_eq_getElem hql]
      rfl
    rw [heq]
    exact hlab _ (List.getElem_mem hql)
  · have heq : labels.getD i 0 = 0 := by
      rw [List.getD_eq_getElem?_getD, List.getElem?_eq_none (by omega)]
      rfl
    rw [heq]
    exact hk

theorem mean_min_multi (S : List (List ℝ)) (d : ℕ) (hne : S ≠ [])
    (hdim : ∀ p ∈ S, p.length = d) (c : List ℝ) :
    (S.map (fun p => dist2 p ((List.range d).map (fun dim =>
      (S.map (fun q => q.getD dim 0)).sum / S.length)))).sum ≤
    (S.map (fun p => dist2 p c)).sum := by
  have hlen : (S.map (fun q => q.getD 0 0)).length = S.length := List.length_map _ _
  have lhs_eq : ∀ p ∈ S, dist2 p ((List.range d).map (fun dim =>
      (S.map (fun q => q.getD dim 0)).sum / S.length)) =
      ((List.range d).map (fun dim => (p.getD dim 0 -
        (S.map (fun q => q.getD dim 0)).sum / S.length) ^ 2)).sum := by
    intro p hp
    rw [dist2, hdim p hp]
    apply congrArg
    apply List.map_congr_left
    intro dim hdimm
    rw [getD_range_map _ (List.mem_range.mp hdimm)]
  have rhs_eq : ∀ p ∈ S, dist2 p c =
      ((List.range d).map (fun dim => (p.getD dim 0 - c.getD dim 0) ^ 2)).sum := by
    intro p hp
    rw [dist2, hdim p hp]
  rw [List.map_congr_left lhs_eq, List.map_congr_left rhs_eq]
  rw [sum_fubini, sum_fubini]
  apply List.sum_le_sum
  intro dim _
  have hxs : S.map (fun q => q.getD dim 0) ≠ [] := by
    simpa using hne
  have h1d := mean_min_1d (S.map (fun q => q.getD dim 0)) hxs (c.getD dim 0)
  rw [List.map_map, List.map_map, List.length_map] at h1d
  exact h1d

theorem update_le (points : List (List ℝ)) (C : List (List ℝ))
    (labels : List ℕ) (d : ℕ) (hd : ∀ p ∈ points, p.length = d)
    (hk : 0 < C.length) (hlab : ∀ l ∈ labels, l < C.length) :
    inertia points
      (C.enum.map (fun jc => updateCentroid points labels d jc.1 jc.2), labels) ≤
    inertia points (C, labels) := by
  rw [inertia_eq_dist2, inertia_eq_dist2]
  simp only
  have hkeys : ∀ q ∈ points.enum, labels.getD q.1 0 < C.length :=
    fun q _ => labels_getD_lt hlab hk q.1
  rw [sum_partition points.enum (fun q => labels.getD q.1 0) C.length hkeys
    (fun q => dist2 q.2
      ((C.enum.map (fun jc => updateCentroid points labels d jc.1 jc.2)).getD
        (labels.getD q.1 0) []))]
  rw [sum_partition points.enum (fun q => labels.getD q.1 0) C.length hkeys
    (fun q => dist2 q.2 (C.getD (labels.getD q.1 0) []))]
  apply List.sum_le_sum
  intro j hjr
  have hj : j < C.length := List.mem_range.mp hjr
  have hfix : ∀ q ∈ points.enum.filter (fun q => labels.getD q.1 0 = j),
      labels.getD q.1 0 = j := by
    intro q hq
    have := (List.mem_filter.mp hq).2
    exact of_decide_eq_true this
  have hC'j : (C.enum.map (fun jc =>
      updateCentroid points labels d jc.1 jc.2)).getD j [] =
      updateCentroid points labels d j (C.getD j []) := by
    have hje : j < C.enum.length := by
      rw [List.enum_length]; exact hj
    rw [List.getD_eq_getElem?_getD, List.getElem?_map,
      List.getElem?_eq_getElem hje, List.getElem_enum]
    have : C.getD j [] = C[j] := by
      rw [List.getD_eq_getElem?_getD, List.getElem?_eq_getElem hj]
      rfl
    rw [this]
    rfl
  have e1 : (points.enum.filter (fun q => labels.getD q.1 0 = j)).map
      (fun q => dist2 q.2
        ((C.enum.map (fun jc => updateCentroid points labels d jc.1 jc.2)).getD
          (labels.getD q.1 0) [])) =
      (points.enum.filter (fun q => labels.getD q.1 0 = j)).map
      (fun q => dist2 q.2 (updateCentroid points labels d j (C.getD j []))) := by
    apply List.map_congr_left
    intro q hq
    rw [hfix q hq, hC'j]
  have e2 : (points.enum.filter (fun q => labels.getD q.1 0 = j)).map
      (fun q => dist2 q.2 (C.getD (labels.getD q.1 0) [])) =
      (points.enum.filter (fun q => labels.getD q.1 0 = j)).map
      (fun q => dist2 q.2 (C.getD j [])) := by
    apply List.map_congr_left
    intro q hq
    rw [hfix q hq]
  rw [e1, e2]
  by_cases hS : points.enum.filter (fun q => labels.getD q.1 0 = j) = []
  · rw [hS]
    simp
  · have hcl : ((points.enum.filter (fun q => labels.getD q.1 0 = j)).map
        (fun q => q.2)) ≠ [] := by
      simpa using hS
    have hupd : updateCentroid points labels d j (C.getD j []) =
        (List.range d).map (fun dim =>
          (((points.enum.filter (fun q => labels.getD q.1 0 = j)).map
            (fun q => q.2)).map (fun p => p.getD dim 0)).sum /
          ((points.enum.filter (fun q => labels.getD q.1 0 = j)).map
            (fun q => q.2)).length) := by
      rw [updateCentroid]
      rw [if_neg (by simpa [List.length_eq_zero] using hcl)]
    rw [hupd]
    have hdims : ∀ p ∈ (points.enum.filter (fun q => labels.getD q.1 0 = j)).map
        (fun q => q.2), p.length = d := by
      intro p hp
      obtain ⟨q, hq, rfl⟩ := List.mem_map.mp hp
      have hqe : q ∈ points.enum := (List.mem_filter.mp hq).1
      have hmem := List.mem_enum_iff_getElem?.mp hqe
      have hq1 : q.1 < points.length := (List.getElem?_eq_some_iff.mp hmem).1
      have : points[q.1] = q.2 := by
        have h' := List.getElem?_eq_getElem hq1
        rw [hmem] at h'
        exact (Option.some.inj h').symm
      rw [← this]
      exact hd _ (List.getElem_mem hq1)
    have hmm := mean_min_multi
      ((points.enum.filter (fun q => labels.getD q.1 0 = j)).map (fun q => q.2))
      d hcl hdims (C.getD j [])
    rw [List.map_map, List.map_map] at hmm
    exact hmm

theorem assignLabels_lt (points : List (List ℝ)) (C : List (List ℝ))
    (hk : C ≠ []) : ∀ l ∈ assignLabels points C, l < C.length := by
  intro l hl
  obtain ⟨p, _, rfl⟩ := List.mem_map.mp hl
  exact (nearestCluster_spec p C hk).1

theorem stepState_inertia_le (points : List (List ℝ)) (d : ℕ)
    (s : List (List ℝ) × List ℕ) (hd : ∀ p ∈ points, p.length = d)
    (hk : 0 < s.1.length) (hlab : ∀ l ∈ s.2, l < s.1.length) :
    inertia points (stepState points d s) ≤ inertia points s := by
  obtain ⟨C, labels⟩ := s
  simp only at hk hlab
  have hkne : C ≠ [] := by
    intro hC
    rw [hC] at hk
    simp at hk
  calc inertia points (stepState points d (C, labels))
      ≤ inertia points (C, assignLabels points C) := by
        rw [stepState]
        exact update_le points C (assignLabels points C) d hd hk
          (assignLabels_lt points C hkne)
    _ ≤ inertia points (C, labels) := assign_le points C labels hkne hlab

theorem stepState_preserves (points : List (List ℝ)) (d : ℕ)
    (s : List (List ℝ) × List ℕ) (hk : 0 < s.1.length)
    (hc : ∀ c ∈ s.1, c.length = d) :
    (stepState points d s).1.length = s.1.length ∧
    (∀ c ∈ (stepState points d s).1, c.length = d) ∧
    (∀ l ∈ (stepState points d s).2, l < (stepState points d s).1.length) := by
  obtain ⟨C, labels⟩ := s
  simp only at hk hc
  have hkne : C ≠ [] := by
    intro hC
    rw [hC] at hk
    simp at hk
  have hlen : (stepState points d (C, labels)).1.length = C.length := by
    rw [stepState]
    simp [List.enum_length]
  refine ⟨hlen, ?_, ?_⟩
  · intro c hcmem
    rw [stepState] at hcmem
    simp only at hcmem
    obtain ⟨jc, hjc, rfl⟩ := List.mem_map.mp hcmem
    rw [updateCentroid]
    by_cases hz : ((points.enum.filter
        (fun q => (assignLabels points C).getD q.1 0 = jc.1)).map
        (fun q => q.2)).length = 0
    · rw [if_pos hz]
      have hmem := List.mem_enum_iff_getElem?.mp hjc
      have hj1 : jc.1 < C.length := (List.getElem?_eq_some_iff.mp hmem).1
      have : C[jc.1] = jc.2 := by
        have h' := List.getElem?_eq_getElem hj1
        rw [hmem] at h'
        exact (Option.some.inj h').symm
      rw [← this]
      exact hc _ (List.getElem_mem hj1)
    · rw [if_neg hz]
      simp
  · intro l hl
    rw [hlen]
    rw [stepState] at hl
    simp only at hl
    exact assignLabels_lt points C hkne l hl

end Cluster

/-- C8: starting from any initial centroid placement (with at least one
centroid, matching the k of 2..8 offered by the component) and the
all-zero initial labels of the source, the k-means inertia is
non-increasing from each iteration to the next, across the assignment
step and the centroid-recomputation step, for as long as the loop runs. -/
theorem kmeans_inertia_nonincreasing (points : List (List ℝ)) (d : ℕ)
    (centroids0 : List (List ℝ)) (hd : ∀ p ∈ points, p.length = d)
    (hc0 : ∀ c ∈ centroids0, c.length = d) (hk0 : 0 < centroids0.length) :
    ∀ m : ℕ,
      Cluster.inertia points ((Cluster.stepState points d)^[m + 1]
        (centroids0, List.replicate points.length 0)) ≤
      Cluster.inertia points ((Cluster.stepState points d)^[m]
        (centroids0, List.replicate points.length 0)) := by
  have hinv : ∀ m : ℕ,
      0 < ((Cluster.stepState points d)^[m]
        (centroids0, List.replicate points.length 0)).1.length ∧
      (∀ c ∈ ((Cluster.stepState points d)^[m]
        (centroids0, List.replicate points.length 0)).1, c.length = d) ∧
      (∀ l ∈ ((Cluster.stepState points d)^[m]
        (centroids0, List.replicate points.length 0)).2,
        l < ((Cluster.stepState points d)^[m]
          (centroids0, List.replicate points.length 0)).1.length) := by
    intro m
    induction m with
    | zero =>
      refine ⟨hk0, hc0, ?_⟩
      intro l hl
      simp only [Function.iterate_zero, id] at hl ⊢
      rw [List.eq_of_mem_replicate hl]
      exact hk0
    | succ m ih =>
      obtain ⟨ihk, ihc, _⟩ := ih
      rw [Function.iterate_succ_apply']
      obtain ⟨hl1, hl2, hl3⟩ := Cluster.stepState_preserves points d _ ihk ihc
      exact ⟨by rw [hl1]; exact ihk, hl2, hl3⟩
  intro m
  obtain ⟨ihk, ihc, ihl⟩ := hinv m
  rw [Function.iterate_succ_apply']
  exact Cluster.stepState_inertia_le points d _ hd ihk ihl

/-- Witness for C8 at a concrete 2-d instance: two points, two initial
centroids, first iteration. -/
theorem kmeans_inertia_nonincreasing_witness :
    (∀ p ∈ ([[0, 0], [2, 0]] : List (List ℝ)), p.length = 2) ∧
    (∀ c ∈ ([[0, 1], [1, 0]] : List (List ℝ)), c.length = 2) ∧
    0 < ([[0, 1], [1, 0]] : List (List ℝ)).length ∧
    Cluster.inertia [[0, 0], [2, 0]]
      ((Cluster.stepState [[0, 0], [2, 0]] 2)^[0 + 1]
        ([[0, 1], [1, 0]], List.replicate ([[0, 0], [2, 0]] : List (List ℝ)).length 0)) ≤
    Cluster.inertia [[0, 0], [2, 0]]
      ((Cluster.stepState [[0, 0], [2, 0]] 2)^[0]
        ([[0, 1], [1, 0]], List.replicate ([[0, 0], [2, 0]] : List (List ℝ)).length 0)) := by
  have h1 : ∀ p ∈ ([[0, 0], [2, 0]] : List (List ℝ)), p.length = 2 := by
    intro p hp
    rcases List.mem_cons.mp hp with rfl | hp2
    · rfl
    · rcases List.mem_cons.mp hp2 with rfl | hp3
      · rfl
      · simp at hp3
  have h2 : ∀ c ∈ ([[0, 1], [1, 0]] : List (List ℝ)), c.length = 2 := by
    intro c hc
    rcases List.mem_cons.mp hc with rfl | hc2
    · rfl
    · rcases List.mem_cons.mp hc2 with rfl | hc3
      · rfl
      · simp at hc3
  have h3 : 0 < ([[0, 1], [1, 0]] : List (List ℝ)).length := by norm_num
  exact ⟨h1, h2, h3, kmeans_inertia_nonincreasing [[0, 0], [2, 0]] 2
    [[0, 1], [1, 0]] h1 h2 h3 0⟩
